import Mathlib

/-!
Verification development for the otak-mcp-shell servers.

The TypeScript sources are shallowly embedded here.  JavaScript strings
are modelled as `List Char` (named `JStr`), so that every JS string
primitive used by the code (`startsWith`, `includes`, `indexOf`,
`substring`, `split`/`join`, `toLowerCase`, `trim`) has a direct,
executable counterpart with provable equations.  Path handling models the
POSIX behaviour of Node's `path` module (`resolve`, `join`,
`isAbsolute`): purely lexical processing of `.`, `..`, and duplicate
separators; note in particular that `path.resolve` never consults the
filesystem, so symlinks are never followed.  The filesystem itself
(directory trees, symlink tables, stat results) is modelled explicitly
where a claim quantifies over it.
-/

/-- JavaScript strings are modelled as lists of characters. -/
abbrev JStr := List Char

/-- Conversion from a Lean string literal to the `JStr` model. -/
def toL (s : String) : JStr := s.toList

/-- Word characters for the JS regex `\b` boundary: `[A-Za-z0-9_]`. -/
def isWordChar (c : Char) : Bool := c.isAlphanum || c = '_'

/-- Whitespace recognised by JS `trim` (ASCII subset, which covers every
string appearing in the sources and claims). -/
def isJsSpace (c : Char) : Bool :=
  c = ' ' || c = '\t' || c = '\n' || c = '\r' || c = '\x0b' || c = '\x0c'

/-- JS `String.prototype.toLowerCase` (ASCII). -/
def lowerJs (s : JStr) : JStr := s.map Char.toLower

/-- JS `String.prototype.trim`. -/
def trimJs (s : JStr) : JStr :=
  ((s.dropWhile isJsSpace).reverse.dropWhile isJsSpace).reverse

/-- JS `hay.includes(needle)`: some position of `hay` starts with `needle`. -/
def jsIncludes : JStr → JStr → Bool
  | [], needle => needle.isPrefixOf []
  | c :: rest, needle => needle.isPrefixOf (c :: rest) || jsIncludes rest needle

/-- Helper for `jsIndexOf`: first index at or after `i` where `sub` occurs. -/
def jsIndexOfAux (sub : JStr) : JStr → Nat → Int
  | [], i => if sub.isPrefixOf ([] : JStr) then (i : Int) else -1
  | c :: rest, i =>
    if sub.isPrefixOf (c :: rest) then (i : Int) else jsIndexOfAux sub rest (i + 1)

/-- JS `s.indexOf(sub)`: index of the first occurrence, `-1` if absent. -/
def jsIndexOf (s sub : JStr) : Int := jsIndexOfAux sub s 0

/-- Clamp a JS index argument into `[0, len]` as `String.prototype.substring`
does (negative values become `0`, values past the end become `len`). -/
def clampIdx (len : Nat) (i : Int) : Nat :=
  if i < 0 then 0 else min i.toNat len

/-- JS `s.substring(a, b)`: clamps both arguments and swaps them when
`a > b`. -/
def jsSubstring (s : JStr) (a b : Int) : JStr :=
  let x := clampIdx s.length a
  let y := clampIdx s.length b
  if x ≤ y then (s.take y).drop x else (s.take x).drop y

/-- JS `s.substring(a)` (one-argument form: up to the end of the string). -/
def jsSubstringFrom (s : JStr) (a : Int) : JStr :=
  jsSubstring s a (s.length : Int)

/-- Split a path string at `/` separators, keeping empty pieces, exactly as
Node's lexical path normalisation starts by doing. -/
def splitOnSlashAux (cur : JStr) : JStr → List JStr
  | [] => [cur.reverse]
  | c :: rest =>
    if c = '/' then cur.reverse :: splitOnSlashAux [] rest
    else splitOnSlashAux (c :: cur) rest

/-- Split a string on `/`. -/
def splitOnSlash (s : JStr) : List JStr := splitOnSlashAux [] s

/-- Process path segments the way Node normalises an absolute path: empty
segments and `.` are dropped, `..` pops the previous segment (or is dropped
at the root). `acc` holds the already-accepted segments in reverse order. -/
def normSegs (acc : List JStr) : List JStr → List JStr
  | [] => acc.reverse
  | seg :: rest =>
    if seg = [] then normSegs acc rest
    else if seg = toL "." then normSegs acc rest
    else if seg = toL ".." then normSegs acc.tail rest
    else normSegs (seg :: acc) rest

/-- Join path segments with `/` separators. -/
def joinSegs : List JStr → JStr
  | [] => []
  | [s] => s
  | s :: t :: ts => s ++ '/' :: joinSegs (t :: ts)

/-- Canonical segment list of a path (after `.`/`..`/empty-segment
processing). -/
def canonSegs (p : JStr) : List JStr := normSegs [] (splitOnSlash p)

/-- Node `path.resolve(p)` for an absolute `p` (every call site in the
embedded functions passes an absolute string): lexical canonicalisation.
Symlinks are NOT followed — `path.resolve` never touches the filesystem. -/
def resolveAbs (p : JStr) : JStr := '/' :: joinSegs (canonSegs p)

/-- Node `path.isAbsolute` (POSIX). -/
def isAbsolute (p : JStr) : Bool :=
  match p with
  | '/' :: _ => true
  | _ => false

/-- Node `path.join(a, b)` for an absolute `a`: concatenation followed by
lexical normalisation (for absolute inputs `normalize` agrees with
`resolve` up to a trailing slash, which `normSegs` also discards). -/
def joinPath (a b : JStr) : JStr := resolveAbs (a ++ '/' :: b)

/-- Node `path.resolve(base, target)` for an absolute `base`. -/
def resolveFrom (base target : JStr) : JStr :=
  if isAbsolute target then resolveAbs target else resolveAbs (base ++ '/' :: target)

/-- Embeds `isPathAllowed` (src/index.ts:24-28 and 431-435,
src/mcp-http-server.ts:38-42, src/http-server.ts:359-363 — all variants are
textually identical):
`path.resolve(targetPath).startsWith(path.resolve(allowedDirectory))`.
Note this is a RAW character-prefix comparison of the two resolved
strings. -/
def isPathAllowed (allowedDirectory targetPath : JStr) : Bool :=
  (resolveAbs allowedDirectory).isPrefixOf (resolveAbs targetPath)

/-- The access-denied message thrown by `getSafePath`. -/
def accessDeniedMsg (allowedDirectory : JStr) : JStr :=
  toL "Access denied: Path outside allowed directory (" ++ allowedDirectory ++ toL ")"

/-- Embeds `getSafePath` (src/http-server.ts:366-381, src/index.ts:31-46,
src/mcp-http-server.ts:45-60): absolute requests are checked directly and
returned verbatim; relative requests are joined onto the allowed directory
and checked. Throwing is modelled by `Except.error`. -/
def getSafePath (allowedDirectory requestedPath : JStr) : Except JStr JStr :=
  if isAbsolute requestedPath then
    if !isPathAllowed allowedDirectory requestedPath then
      Except.error (accessDeniedMsg allowedDirectory)
    else Except.ok requestedPath
  else
    let fullPath := joinPath allowedDirectory requestedPath
    if !isPathAllowed allowedDirectory fullPath then
      Except.error (accessDeniedMsg allowedDirectory)
    else Except.ok fullPath

/-- The lexical target `getSafePath` subjects to the containment check:
the request itself when absolute, otherwise its join onto the allowed
directory. -/
def lexTarget (allowedDirectory requestedPath : JStr) : JStr :=
  if isAbsolute requestedPath then requestedPath
  else joinPath allowedDirectory requestedPath

/-- Modelled from the spec (§4.1): the segment-aware containment check the
specification prescribes — the canonical segment list of the sandbox root
must be a segment-list prefix of the canonical segment list of the target.
Used to compare the specified check with the implemented one. -/
def isPathAllowedSegwise (allowedDirectory targetPath : JStr) : Bool :=
  (canonSegs allowedDirectory).isPrefixOf (canonSegs targetPath)

/-- Environment model for claims that quantify over symlink configurations:
a symlink table maps a path to its real target; paths not in the table are
their own target. The embedded TypeScript functions never consult such a
table (they never call `fs.realpath`), which is the point at issue. -/
def realTarget (links : List (JStr × JStr)) (p : JStr) : JStr :=
  (links.lookup p).getD p

/-- A demonstration symlink table: `/sandbox/link` is a symlink whose real
target is `/etc/passwd`, outside the sandbox. -/
def demoLinks : List (JStr × JStr) := [(toL "/sandbox/link", toL "/etc/passwd")]

/-- Embeds `DANGEROUS_COMMANDS` (src/index.ts:303-344, shell variant):
the denylist of substrings that immediately disqualify a command. -/
def DANGEROUS_COMMANDS : List JStr :=
  [toL "rm -rf /", toL "format", toL "fdisk", toL "mkfs", toL "dd",
   toL "shutdown", toL "reboot", toL "halt", toL "poweroff",
   toL "init 0", toL "init 6", toL "sudo", toL "su", toL "chmod 777",
   toL "chown", toL "passwd", toL "userdel", toL "useradd", toL "usermod",
   toL "groupadd", toL "groupdel", toL "crontab -r", toL "history -c",
   toL "> /etc/", toL "> /var/", toL "> /usr/", toL "> /bin/",
   toL "> /sbin/", toL "systemctl", toL "service", toL "net ",
   toL "netsh", toL "reg delete", toL "reg add", toL "regsvr32",
   toL "taskkill /f", toL "wmic", toL "powershell", toL "cmd.exe",
   toL "diskpart"]

/-- Matcher for a JS regex of the form `^w\b`: the string starts with `w`
and the next character (if any) fails the word-boundary test. -/
def startsWithWord (w s : JStr) : Bool :=
  w.isPrefixOf s &&
    (match s.drop w.length with
     | [] => true
     | c :: _ => !isWordChar c)

/-- Matcher for the lookahead body `.*-rf.*\/`: an occurrence of `-rf`
followed (at or after its end) by a `/` character. -/
def hasRfThenSlash : JStr → Bool
  | [] => false
  | c :: rest =>
    ((toL "-rf").isPrefixOf (c :: rest) && (rest.drop 2).contains '/') ||
      hasRfThenSlash rest

/-- Matcher for the allowlist entry `/^rm\b(?!.*-rf.*\/)/`
(src/index.ts:363): starts with the word `rm` and the negative lookahead
(evaluated after the two consumed characters) finds no `-rf` later
followed by a forward slash. -/
def rmAllowedPattern (s : JStr) : Bool :=
  startsWithWord (toL "rm") s && !hasRfThenSlash (s.drop 2)

/-- Embeds `ALLOWED_COMMAND_PATTERNS` (src/index.ts:347-420): each regex
`/^w\b/` becomes `startsWithWord w`, each `/^w$/` becomes an equality
test, and the special `rm` entry keeps its negative lookahead. Order
follows the source. -/
def ALLOWED_COMMAND_PATTERNS : List (JStr → Bool) :=
  [fun s => startsWithWord (toL "ls") s,
   fun s => startsWithWord (toL "dir") s,
   fun s => s == toL "pwd",
   fun s => startsWithWord (toL "cd") s,
   fun s => startsWithWord (toL "mkdir") s,
   fun s => startsWithWord (toL "rmdir") s,
   fun s => startsWithWord (toL "touch") s,
   fun s => startsWithWord (toL "cat") s,
   fun s => startsWithWord (toL "head") s,
   fun s => startsWithWord (toL "tail") s,
   fun s => startsWithWord (toL "less") s,
   fun s => startsWithWord (toL "more") s,
   fun s => startsWithWord (toL "cp") s,
   fun s => startsWithWord (toL "mv") s,
   fun s => rmAllowedPattern s,
   fun s => startsWithWord (toL "grep") s,
   fun s => startsWithWord (toL "sed") s,
   fun s => startsWithWord (toL "awk") s,
   fun s => startsWithWord (toL "sort") s,
   fun s => startsWithWord (toL "uniq") s,
   fun s => startsWithWord (toL "wc") s,
   fun s => startsWithWord (toL "find") s,
   fun s => startsWithWord (toL "echo") s,
   fun s => s == toL "whoami",
   fun s => s == toL "date",
   fun s => startsWithWord (toL "uname") s,
   fun s => startsWithWord (toL "ps") s,
   fun s => s == toL "top",
   fun s => startsWithWord (toL "df") s,
   fun s => startsWithWord (toL "du") s,
   fun s => startsWithWord (toL "free") s,
   fun s => s == toL "uptime",
   fun s => startsWithWord (toL "which") s,
   fun s => startsWithWord (toL "whereis") s,
   fun s => startsWithWord (toL "type") s,
   fun s => startsWithWord (toL "ping") s,
   fun s => startsWithWord (toL "curl") s,
   fun s => startsWithWord (toL "wget") s,
   fun s => startsWithWord (toL "nslookup") s,
   fun s => startsWithWord (toL "dig") s,
   fun s => startsWithWord (toL "git") s,
   fun s => startsWithWord (toL "npm") s,
   fun s => startsWithWord (toL "node") s,
   fun s => startsWithWord (toL "python") s,
   fun s => startsWithWord (toL "pip") s,
   fun s => startsWithWord (toL "java") s,
   fun s => startsWithWord (toL "javac") s,
   fun s => startsWithWord (toL "gcc") s,
   fun s => startsWithWord (toL "make") s,
   fun s => startsWithWord (toL "cmake") s,
   fun s => startsWithWord (toL "nano") s,
   fun s => startsWithWord (toL "vim") s,
   fun s => startsWithWord (toL "vi") s,
   fun s => startsWithWord (toL "emacs") s,
   fun s => startsWithWord (toL "tar") s,
   fun s => startsWithWord (toL "zip") s,
   fun s => startsWithWord (toL "unzip") s,
   fun s => startsWithWord (toL "gzip") s,
   fun s => startsWithWord (toL "gunzip") s]

/-- Embeds `isCommandSafe` (src/index.ts:438-456, allowlist shell
variant): lowercase and trim the command, reject if any dangerous entry
occurs as a substring, otherwise accept exactly when some allowed pattern
matches. -/
def isCommandSafe (command : JStr) : Bool :=
  let lowerCommand := trimJs (lowerJs command)
  if DANGEROUS_COMMANDS.any (fun dangerous => jsIncludes lowerCommand (lowerJs dangerous)) then
    false
  else
    ALLOWED_COMMAND_PATTERNS.any (fun p => p lowerCommand)

/-- Delete-style verbs of the destructive patterns in the Windows SSE
shell variant (src/unnamed/part_003:59-62). -/
def DESTRUCTIVE_DELETE_VERBS : List JStr :=
  [toL "remove-item", toL "rm", toL "del", toL "erase"]

/-- Move-style verbs of the destructive patterns
(src/unnamed/part_003:63-65). -/
def DESTRUCTIVE_MOVE_VERBS : List JStr :=
  [toL "move-item", toL "mv", toL "move", toL "ren", toL "rename"]

/-- Matcher for the regex fragment `[c-z]:\\` occurring anywhere:
a drive-root reference. -/
def hasDriveRootRef : JStr → Bool
  | [] => false
  | c :: rest =>
    (('c' ≤ c && c ≤ 'z') &&
       (match rest with
        | ':' :: '\\' :: _ => true
        | _ => false)) ||
      hasDriveRootRef rest

/-- Matcher for the regex fragment `program\s*files` occurring anywhere. -/
def hasProgramFiles : JStr → Bool
  | [] => false
  | c :: rest =>
    ((toL "program").isPrefixOf (c :: rest) &&
       (toL "files").isPrefixOf (((c :: rest).drop 7).dropWhile isJsSpace)) ||
      hasProgramFiles rest

/-- After a destructive verb the pattern requires `\s+` then `.*` then the
target: the next character must be whitespace and the target must occur in
the remainder. -/
def wsThenTarget (target : JStr → Bool) : JStr → Bool
  | [] => false
  | c :: rest => isJsSpace c && target rest

/-- Matcher for `(?:verb1|verb2|...)\s+.*<target>` occurring anywhere in
the (already lowercased, modelling the `i` flag) command string. -/
def destructiveScan (verbs : List JStr) (target : JStr → Bool) : JStr → Bool
  | [] => false
  | c :: rest =>
    (verbs.any (fun v =>
       v.isPrefixOf (c :: rest) && wsThenTarget target ((c :: rest).drop v.length))) ||
      destructiveScan verbs target rest

/-- Target test for `.*windows`: `windows` occurs in the remainder. -/
def windowsTarget (s : JStr) : Bool := jsIncludes s (toL "windows")

/-- Embeds `isCommandSafe` of the Windows SSE shell variant
(src/unnamed/part_003:55-76): a fail-open denylist — the command is
rejected only when one of the six destructive verb/target patterns
matches (the `i` flag is modelled by lowercasing the command first), and
allowed otherwise. -/
def isCommandSafeDeny (command : JStr) : Bool :=
  let lower := lowerJs command
  if destructiveScan DESTRUCTIVE_DELETE_VERBS hasDriveRootRef lower then false
  else if destructiveScan DESTRUCTIVE_DELETE_VERBS windowsTarget lower then false
  else if destructiveScan DESTRUCTIVE_DELETE_VERBS hasProgramFiles lower then false
  else if destructiveScan DESTRUCTIVE_MOVE_VERBS hasDriveRootRef lower then false
  else if destructiveScan DESTRUCTIVE_MOVE_VERBS windowsTarget lower then false
  else if destructiveScan DESTRUCTIVE_MOVE_VERBS hasProgramFiles lower then false
  else true

/-- Helper for `jsSplit` with a nonempty separator `c0 :: s0`: scans the
string one character at a time, splitting at each leftmost,
non-overlapping occurrence of the separator. `skip` counts separator
characters still to be consumed after a match, `cur` accumulates the
current piece in reverse. -/
def jsSplitGo (c0 : Char) (s0 : JStr) : JStr → Nat → JStr → List JStr
  | [], _, cur => [cur.reverse]
  | _ :: rest, skip + 1, cur => jsSplitGo c0 s0 rest skip cur
  | c :: rest, 0, cur =>
    if (c0 :: s0).isPrefixOf (c :: rest) then
      cur.reverse :: jsSplitGo c0 s0 rest s0.length []
    else jsSplitGo c0 s0 rest 0 (c :: cur)
termination_by structural s => s

/-- JS `s.split(sep)`: for an empty separator the string splits into its
individual characters; otherwise it splits at each occurrence of `sep`. -/
def jsSplit (sep s : JStr) : List JStr :=
  match sep with
  | [] => s.map (fun c => [c])
  | c0 :: s0 => jsSplitGo c0 s0 s 0 []

/-- JS `pieces.join(sep)`. -/
def jsJoin (sep : JStr) : List JStr → JStr
  | [] => []
  | [p] => p
  | p :: q :: rest => p ++ sep ++ jsJoin sep (q :: rest)

/-- JS `content.split(oldText).join(newText)`: the replace-all idiom used
by Edit and MultiEdit. -/
def jsReplaceAll (content oldText newText : JStr) : JStr :=
  jsJoin newText (jsSplit oldText content)

/-- The first-occurrence replacement of Edit/MultiEdit, written exactly as
the source computes it:
`content.substring(0, index) + newText + content.substring(index + oldText.length)`
with `index = content.indexOf(oldText)`. When `oldText` is absent,
`index` is `-1` and the JS clamping semantics of `substring` apply. -/
def jsReplaceOnce (content oldText newText : JStr) : JStr :=
  let index := jsIndexOf content oldText
  jsSubstring content 0 index ++ newText ++
    jsSubstringFrom content (index + (oldText.length : Int))

/-- One find/replace operation of MultiEdit (`replace_all` defaults to
false in the source). -/
structure EditOp where
  old_text : JStr
  new_text : JStr
  replace_all : Bool

/-- Application of a single edit to the in-memory buffer, as performed by
the apply loops of Edit (src/http-server.ts:758-767) and MultiEdit
(src/http-server.ts:801-821). -/
def applyEditJs (content : JStr) (e : EditOp) : JStr :=
  if e.replace_all then jsReplaceAll content e.old_text e.new_text
  else jsReplaceOnce content e.old_text e.new_text

/-- Embeds the Edit tool's content transformation
(src/http-server.ts:744-780): reject when `oldText` is not included in
the current content, otherwise produce the updated content that the
single `fs.writeFile` persists. (The success message and occurrence
count reported alongside are omitted; only the file-state behaviour is
modelled.) -/
def editTool (content oldText newText : JStr) (replaceAll : Bool) : Except JStr JStr :=
  if !jsIncludes content oldText then
    Except.error (toL "Text not found in file: \"" ++ oldText ++ toL "\"")
  else if replaceAll then Except.ok (jsReplaceAll content oldText newText)
  else Except.ok (jsReplaceOnce content oldText newText)

/-- The validation error message of MultiEdit, 1-based edit numbering. -/
def multiEditErrMsg (i : Nat) (oldText : JStr) : JStr :=
  toL "Edit " ++ toL (toString i) ++ toL ": Text not found in file: \"" ++
    oldText ++ toL "\""

/-- The validation loop of MultiEdit (src/http-server.ts:791-796): every
edit's `old_text` is checked against `currentContent`, which at this
point still holds the ORIGINAL file content for every index; the first
missing one aborts. -/
def multiEditValidate (content : JStr) : List EditOp → Nat → Option JStr
  | [], _ => none
  | e :: rest, i =>
    if jsIncludes content e.old_text then multiEditValidate content rest (i + 1)
    else some (multiEditErrMsg i e.old_text)

/-- Embeds the MultiEdit tool's content transformation
(src/http-server.ts:782-834): validate all edits against the original
content, then fold the apply loop over the buffer and persist the result
with a single write. An error means the single `fs.writeFile` at the end
is never reached, so the on-disk content stays untouched. -/
def multiEditTool (content : JStr) (edits : List EditOp) : Except JStr JStr :=
  match multiEditValidate content edits 1 with
  | some msg => Except.error msg
  | none => Except.ok (edits.foldl applyEditJs content)

/-- Whether an `Except` result is a success. -/
def exceptOk : Except JStr JStr → Bool
  | Except.ok _ => true
  | Except.error _ => false

/-- Embeds the CD tool (src/index.ts:746-780, shell stdio variant). The
filesystem is abstracted by `isDir p`, true when `fs.stat(p)` succeeds
and reports a directory (the code folds a failing stat and a
non-directory into the same catch clause). The returned pair is the
state of `allowedDirectory` after the call together with the thrown or
returned message. -/
def cdTool (isDir : JStr → Bool) (allowedDirectory targetPath : JStr) :
    JStr × Except JStr JStr :=
  if targetPath = [] then
    (allowedDirectory, Except.error (toL "Path is required"))
  else
    let newPath := resolveFrom allowedDirectory targetPath
    if !isPathAllowed allowedDirectory newPath then
      (allowedDirectory,
       Except.error (toL "Path outside allowed directory: " ++ newPath))
    else if !isDir newPath then
      (allowedDirectory,
       Except.error (toL "Directory does not exist: " ++ newPath))
    else
      (newPath, Except.ok (toL "Changed working directory to: " ++ newPath))

/-- Filesystem trees for the search tools: a directory entry is a file
(with content, for Grep, and a modification time, for Search) or a
subdirectory with its own entries. -/
inductive FsEntry : Type where
  | file (name : JStr) (content : JStr) (mtime : Nat) : FsEntry
  | dir (name : JStr) (children : List FsEntry) : FsEntry

/-- Name of a directory entry (what `readdir` reports). -/
def entryName : FsEntry → JStr
  | FsEntry.file n _ _ => n
  | FsEntry.dir n _ => n

/-- The `type` field of a Glob match. -/
def entryTypeStr : FsEntry → JStr
  | FsEntry.file _ _ _ => toL "file"
  | FsEntry.dir _ _ => toL "directory"

/-- A Glob result record: `{name, path, type}`. -/
structure GlobMatch where
  name : JStr
  path : JStr
  type : JStr
deriving DecidableEq

/-- The per-directory local matches of the Glob tool's
`searchInDirectory` (src/http-server.ts:533-547): every entry whose name
passes the pattern test is reported. The compiled `regex.test` is
abstracted as the boolean `test` and `path.join(dirPath, entry.name)` as
appending `'/' :: name` (entry names never contain a separator). -/
def globLocals (test : JStr → Bool) (dirPath : JStr)
    (entries : List FsEntry) : List GlobMatch :=
  entries.filterMap (fun entry =>
    if test (entryName entry) then
      some ⟨entryName entry, dirPath ++ '/' :: entryName entry, entryTypeStr entry⟩
    else none)

mutual
/-- The results contributed by recursing into a single entry of the Glob
traversal: nothing for a file, and — while `recursive` holds and
`currentDepth < 10` (src/http-server.ts:544) — the full
`searchInDirectory` result of a subdirectory, i.e. its local matches
followed by its own recursive fan-out. -/
def globEntrySubs (test : JStr → Bool) (recursive : Bool) (dirPath : JStr)
    (currentDepth : Nat) : FsEntry → List GlobMatch
  | FsEntry.file _ _ _ => []
  | FsEntry.dir n children =>
    if recursive && currentDepth < 10 then
      globLocals test (dirPath ++ '/' :: n) children ++
        globListSubs test recursive (dirPath ++ '/' :: n) (currentDepth + 1) children
    else []
termination_by structural e => e

/-- The subdirectory fan-out of the Glob traversal over a directory's
entries, in entry order (the parallel `Promise.all` joins results in the
order the promises were pushed). -/
def globListSubs (test : JStr → Bool) (recursive : Bool) (dirPath : JStr)
    (currentDepth : Nat) : List FsEntry → List GlobMatch
  | [] => []
  | e :: rest =>
    globEntrySubs test recursive dirPath currentDepth e ++
      globListSubs test recursive dirPath currentDepth rest
termination_by structural l => l
end

/-- Embeds `searchInDirectory` of the Glob tool
(src/http-server.ts:527-558): a directory's local matches precede the
flattened subdirectory results. -/
def globDir (test : JStr → Bool) (recursive : Bool) (dirPath : JStr)
    (entries : List FsEntry) (currentDepth : Nat) : List GlobMatch :=
  globLocals test dirPath entries ++
    globListSubs test recursive dirPath currentDepth entries

/-- The data object returned by the Glob tool (src/http-server.ts:562-569):
pattern, search path and the results sliced to 100 — and nothing else; in
particular no total-match count. -/
structure GlobResponse where
  pattern : JStr
  searchPath : JStr
  results : List GlobMatch
deriving DecidableEq

/-- Embeds the Glob tool's response construction
(src/http-server.ts:520-570). -/
def globTool (test : JStr → Bool) (patternStr searchPath : JStr)
    (entries : List FsEntry) (recursive : Bool) : GlobResponse :=
  ⟨patternStr, searchPath, (globDir test recursive searchPath entries 0).take 100⟩

/-- A Grep result record: `{file, lineNumber, line, match}` (the last
field is named `matched` here because `match` is a Lean keyword). -/
structure GrepMatch where
  file : JStr
  lineNumber : Nat
  line : JStr
  matched : JStr
deriving DecidableEq

/-- Embeds `searchInFile` of the Grep tool (src/http-server.ts:588-613):
the file content is split into lines, and for each line every regex match
yields a result carrying the 1-based line number and the trimmed line.
The compiled content regex's `line.match(...)` (a possibly empty list of
matched substrings) is abstracted as `matcher`. -/
def grepFile (matcher : JStr → List JStr) (filePath content : JStr) : List GrepMatch :=
  (jsSplit (toL "\n") content).enum.flatMap (fun p =>
    (matcher p.2).map (fun m => ⟨filePath, p.1 + 1, trimJs p.2, m⟩))

/-- The optional file-name filter of Grep: absent means every file is
searched (src/http-server.ts:626). -/
def passesFileFilter (fileFilter : Option (JStr → Bool)) (n : JStr) : Bool :=
  match fileFilter with
  | none => true
  | some t => t n

/-- The per-directory file results of the Grep tool's `searchInDirectory`
(src/http-server.ts:621-632): each file entry passing the name filter is
content-searched; results come in entry order. -/
def grepLocals (matcher : JStr → List JStr) (fileFilter : Option (JStr → Bool))
    (dirPath : JStr) (entries : List FsEntry) : List GrepMatch :=
  (entries.filterMap (fun entry =>
     match entry with
     | FsEntry.file n c _ =>
       if passesFileFilter fileFilter n then
         some (grepFile matcher (dirPath ++ '/' :: n) c)
       else none
     | FsEntry.dir _ _ => none)).flatten

mutual
/-- The results contributed by recursing into a single entry of the Grep
traversal (guard `recursive && currentDepth < 10`,
src/http-server.ts:629). -/
def grepEntrySubs (matcher : JStr → List JStr) (fileFilter : Option (JStr → Bool))
    (recursive : Bool) (dirPath : JStr) (currentDepth : Nat) :
    FsEntry → List GrepMatch
  | FsEntry.file _ _ _ => []
  | FsEntry.dir n children =>
    if recursive && currentDepth < 10 then
      grepLocals matcher fileFilter (dirPath ++ '/' :: n) children ++
        grepListSubs matcher fileFilter recursive (dirPath ++ '/' :: n)
          (currentDepth + 1) children
    else []
termination_by structural e => e

/-- The subdirectory fan-out of the Grep traversal, in entry order. -/
def grepListSubs (matcher : JStr → List JStr) (fileFilter : Option (JStr → Bool))
    (recursive : Bool) (dirPath : JStr) (currentDepth : Nat) :
    List FsEntry → List GrepMatch
  | [] => []
  | e :: rest =>
    grepEntrySubs matcher fileFilter recursive dirPath currentDepth e ++
      grepListSubs matcher fileFilter recursive dirPath currentDepth rest
termination_by structural l => l
end

/-- Embeds `searchInDirectory` of the Grep tool
(src/http-server.ts:615-648): file results of the directory first, then
the flattened subdirectory results. -/
def grepDir (matcher : JStr → List JStr) (fileFilter : Option (JStr → Bool))
    (recursive : Bool) (dirPath : JStr) (entries : List FsEntry)
    (currentDepth : Nat) : List GrepMatch :=
  grepLocals matcher fileFilter dirPath entries ++
    grepListSubs matcher fileFilter recursive dirPath currentDepth entries

/-- The data object returned by the Grep tool (src/http-server.ts:660-670,
restricted to the fields the claims are about): the full match count and
the results sliced to 200. -/
structure GrepResponse where
  totalMatches : Nat
  results : List GrepMatch
deriving DecidableEq

/-- Embeds the Grep tool's response construction for a directory search
(src/http-server.ts:650-670). -/
def grepTool (matcher : JStr → List JStr) (fileFilter : Option (JStr → Bool))
    (recursive : Bool) (searchPath : JStr) (entries : List FsEntry) : GrepResponse :=
  let results := grepDir matcher fileFilter recursive searchPath entries 0
  ⟨results.length, results.take 200⟩

/-- A Search result record: `{path, name, modified}` with the
modification time as a number. -/
structure SearchMatch where
  path : JStr
  name : JStr
  modified : Nat
deriving DecidableEq

/-- Models `path.relative(root, full)` for the strict descendants the
Search traversal constructs: drop the root and the separator. -/
def relFrom (root full : JStr) : JStr := full.drop (root.length + 1)

mutual
/-- One entry of the Search tool's `searchDirectory`
(src/http-server.ts:858-884): a file is reported when its path relative
to the allowed directory matches the glob regex (abstracted as `test`); a
directory is recursed into unconditionally with `currentDepth + 1`, the
recursive call returning nothing once `currentDepth > 10`. Traversal is
sequential (`await` inside the loop), so results interleave in entry
order. -/
def searchEntry (test : JStr → Bool) (rootForRel : JStr) (dirPath : JStr)
    (currentDepth : Nat) : FsEntry → List SearchMatch
  | FsEntry.file n _ m =>
    if test (relFrom rootForRel (dirPath ++ '/' :: n)) then
      [⟨dirPath ++ '/' :: n, n, m⟩]
    else []
  | FsEntry.dir n children =>
    if currentDepth + 1 > 10 then []
    else searchList test rootForRel (dirPath ++ '/' :: n) (currentDepth + 1) children
termination_by structural e => e

/-- The entry loop of `searchDirectory`. -/
def searchList (test : JStr → Bool) (rootForRel : JStr) (dirPath : JStr)
    (currentDepth : Nat) : List FsEntry → List SearchMatch
  | [] => []
  | e :: rest =>
    searchEntry test rootForRel dirPath currentDepth e ++
      searchList test rootForRel dirPath currentDepth rest
termination_by structural l => l
end

/-- Embeds `searchDirectory` of the Search tool
(src/http-server.ts:858-884): the depth guard `currentDepth > 10` returns
before anything is read. -/
def searchDir (test : JStr → Bool) (rootForRel : JStr) (dirPath : JStr)
    (entries : List FsEntry) (currentDepth : Nat) : List SearchMatch :=
  if currentDepth > 10 then []
  else searchList test rootForRel dirPath currentDepth entries

/-- Insertion of one element into a list sorted by descending
modification time. -/
def insertDesc (x : SearchMatch) : List SearchMatch → List SearchMatch
  | [] => [x]
  | y :: rest => if y.modified ≤ x.modified then x :: y :: rest else y :: insertDesc x rest

/-- Models `results.sort((a, b) => b.modified - a.modified)` as an
insertion sort by descending modification time (the claims depend only on
the ordering key and on length preservation). -/
def sortDesc : List SearchMatch → List SearchMatch
  | [] => []
  | x :: rest => insertDesc x (sortDesc rest)

/-- The data object returned by the Search tool
(src/http-server.ts:891-903, restricted to the fields the claims are
about): the full match count and the recency-sorted results sliced to the
caller-supplied limit (default 100). -/
structure SearchResponse where
  totalMatches : Nat
  results : List SearchMatch
deriving DecidableEq

/-- Embeds the Search tool's response construction
(src/http-server.ts:836-904). -/
def searchTool (test : JStr → Bool) (rootForRel searchPath : JStr)
    (entries : List FsEntry) (limit : Nat) : SearchResponse :=
  let results := searchDir test rootForRel searchPath entries 0
  ⟨results.length, (sortDesc results).take limit⟩

/-- A path segment produced by canonicalisation: nonempty, not a dot
segment, and free of separators. -/
def cleanSeg (p : JStr) : Prop :=
  p ≠ [] ∧ p ≠ toL "." ∧ p ≠ toL ".." ∧ '/' ∉ p

mutual
/-- Truncation of one filesystem entry: with budget `0` a directory keeps
its name but loses its children; with budget `k + 1` its children are
truncated with budget `k`. Files are kept whole. -/
def pruneEntry : Nat → FsEntry → FsEntry
  | _, FsEntry.file n c m => FsEntry.file n c m
  | 0, FsEntry.dir n _ => FsEntry.dir n []
  | k + 1, FsEntry.dir n children => FsEntry.dir n (pruneList k children)
termination_by structural _ e => e

/-- Truncation of a directory listing to `k` further levels of descent:
the listed entries themselves are always kept. -/
def pruneList : Nat → List FsEntry → List FsEntry
  | _, [] => []
  | k, e :: rest => pruneEntry k e :: pruneList k rest
termination_by structural _ l => l
end

/-- A directory chain of `k` nested directories named `d`, with a file
named `hit` at the innermost level: `deepDirs k` places the file `k + 1`
levels below the starting directory. -/
def deepDirs : Nat → List FsEntry
  | 0 => [FsEntry.file (toL "hit") [] 0]
  | k + 1 => [FsEntry.dir (toL "d") (deepDirs k)]

/-- A flat directory of `k` identical files named `a`. -/
def flatFiles (k : Nat) : List FsEntry :=
  List.replicate k (FsEntry.file (toL "a") [] 0)

/-! ## Sanity checks: the embedding evaluated on concrete inputs -/

example : resolveAbs (toL "/sandbox/../../etc/passwd") = toL "/etc/passwd" := by decide

example : getSafePath (toL "/sandbox") (toL "a.txt") = Except.ok (toL "/sandbox/a.txt") := rfl

example : isPathAllowed (toL "/sandbox") (toL "/sandbox-evil/f") = true := by decide

example : isCommandSafe (toL "echo hello") = true := by decide

example : isCommandSafe (toL "rm -rf /") = false := by decide

example : isCommandSafe (toL "frobnicate") = false := by decide

example : isCommandSafe (toL "rm -rf C:\\Windows") = true := by decide

example : isCommandSafeDeny (toL "rm -rf C:\\Windows") = false := by decide

example : isCommandSafeDeny (toL "echo hello") = true := by decide

example : isCommandSafe (toL "cat net ") = true := by decide

example : jsIncludes (lowerJs (toL "cat net ")) (lowerJs (toL "net ")) = true := by decide

example : editTool (toL "x=1") (toL "x=1") (toL "x=2") false = Except.ok (toL "x=2") := rfl

example :
    multiEditTool (toL "x=2")
      [⟨toL "x=2", toL "x=3", false⟩, ⟨toL "x=3", toL "x=4", false⟩] =
      Except.error (toL "Edit 2: Text not found in file: \"x=3\"") := rfl

example :
    multiEditTool (toL "xax") [⟨toL "a", toL "b", false⟩, ⟨toL "a", toL "c", false⟩] =
      Except.ok (toL "cxbx") := rfl

example : editTool (toL "x=1") (toL "") (toL "NEW") false = Except.ok (toL "NEWx=1") := rfl

example :
    globTool (fun n => n == toL "a.txt") (toL "a.txt") (toL "/s")
      [FsEntry.file (toL "a.txt") [] 0, FsEntry.dir (toL "d") [FsEntry.file (toL "a.txt") [] 0]]
      true =
      ⟨toL "a.txt", toL "/s",
       [⟨toL "a.txt", toL "/s/a.txt", toL "file"⟩,
        ⟨toL "a.txt", toL "/s/d/a.txt", toL "file"⟩]⟩ := rfl

example :
    grepTool (fun l => if l == toL "hit me" then [toL "hit"] else []) none true (toL "/s")
      [FsEntry.file (toL "a.txt") (toL "no\nhit me") 0] =
      ⟨1, [⟨toL "/s/a.txt", 2, toL "hit me", toL "hit"⟩]⟩ := rfl

example :
    searchTool (fun p => p == toL "d/b.txt") (toL "/s") (toL "/s")
      [FsEntry.dir (toL "d") [FsEntry.file (toL "b.txt") [] 7]] 100 =
      ⟨1, [⟨toL "/s/d/b.txt", toL "b.txt", 7⟩]⟩ := rfl

/-! ## Helper lemmas about lexical path canonicalisation -/

theorem joinSegs_cons_cons (s t : JStr) (ts : List JStr) :
    joinSegs (s :: t :: ts) = s ++ '/' :: joinSegs (t :: ts) := rfl

theorem joinSegs_prefix (l₁ l₂ : List JStr) : joinSegs l₁ <+: joinSegs (l₁ ++ l₂) := by
  induction l₁ with
  | nil => exact List.nil_prefix
  | cons s rest ih =>
    cases rest with
    | nil =>
      cases l₂ with
      | nil => exact List.prefix_refl _
      | cons x xs => exact ⟨'/' :: joinSegs (x :: xs), rfl⟩
    | cons t ts =>
      obtain ⟨r, hr⟩ := ih
      refine ⟨r, ?_⟩
      have h2 : (s :: t :: ts) ++ l₂ = s :: t :: (ts ++ l₂) := by simp
      calc (joinSegs (s :: t :: ts)) ++ r
          = s ++ '/' :: (joinSegs (t :: ts) ++ r) := by
            rw [joinSegs_cons_cons]; simp
        _ = s ++ '/' :: joinSegs ((t :: ts) ++ l₂) := by rw [hr]
        _ = joinSegs ((s :: t :: ts) ++ l₂) := by
            rw [List.cons_append t ts l₂, h2, joinSegs_cons_cons]

theorem splitOnSlashAux_no_slash (s : JStr) (acc : JStr) (h : '/' ∉ s) :
    splitOnSlashAux acc s = [acc.reverse ++ s] := by
  induction s generalizing acc with
  | nil => simp [splitOnSlashAux]
  | cons c rest ih =>
    have hc : ¬(c = '/') := fun hc => h (by simp [hc])
    have hrest : '/' ∉ rest := fun hr => h (List.mem_cons_of_mem _ hr)
    simp [splitOnSlashAux, hc, ih _ hrest]

theorem splitOnSlashAux_slash (piece : JStr) (acc r : JStr) (h : '/' ∉ piece) :
    splitOnSlashAux acc (piece ++ '/' :: r) =
      (acc.reverse ++ piece) :: splitOnSlashAux [] r := by
  induction piece generalizing acc with
  | nil => simp [splitOnSlashAux]
  | cons c p ih =>
    have hc : ¬(c = '/') := fun hc => h (by simp [hc])
    have hp : '/' ∉ p := fun hr => h (List.mem_cons_of_mem _ hr)
    simp [splitOnSlashAux, hc, ih _ hp]

theorem splitOnSlashAux_mem_no_slash (s : JStr) (acc : JStr) (hacc : '/' ∉ acc) :
    ∀ p ∈ splitOnSlashAux acc s, '/' ∉ p := by
  induction s generalizing acc with
  | nil =>
    intro p hp
    simp [splitOnSlashAux] at hp
    subst hp
    simpa using hacc
  | cons c rest ih =>
    intro p hp
    by_cases hc : c = '/'
    · subst hc
      simp [splitOnSlashAux] at hp
      rcases hp with hp | hp
      · subst hp; simpa using hacc
      · exact ih [] (by simp) p hp
    · simp [splitOnSlashAux, hc] at hp
      refine ih (c :: acc) ?_ p hp
      intro hmem
      rcases List.mem_cons.mp hmem with h1 | h1
      · exact hc h1.symm
      · exact hacc h1

theorem splitOnSlash_mem_no_slash (s : JStr) : ∀ p ∈ splitOnSlash s, '/' ∉ p :=
  splitOnSlashAux_mem_no_slash s [] (by simp)

theorem normSegs_mem_clean (l : List JStr) (acc : List JStr)
    (hacc : ∀ p ∈ acc, cleanSeg p) (hl : ∀ p ∈ l, '/' ∉ p) :
    ∀ p ∈ normSegs acc l, cleanSeg p := by
  induction l generalizing acc with
  | nil =>
    intro p hp
    simp [normSegs] at hp
    exact hacc p hp
  | cons seg rest ih =>
    intro p hp
    have hrest : ∀ q ∈ rest, '/' ∉ q := fun q hq => hl q (List.mem_cons_of_mem _ hq)
    by_cases h1 : seg = []
    · rw [normSegs, if_pos h1] at hp
      exact ih acc hacc hrest p hp
    · by_cases h2 : seg = toL "."
      · rw [normSegs, if_neg h1, if_pos h2] at hp
        exact ih acc hacc hrest p hp
      · by_cases h3 : seg = toL ".."
        · rw [normSegs, if_neg h1, if_neg h2, if_pos h3] at hp
          exact ih acc.tail (fun q hq => hacc q (List.tail_subset _ hq)) hrest p hp
        · rw [normSegs, if_neg h1, if_neg h2, if_neg h3] at hp
          refine ih (seg :: acc) ?_ hrest p hp
          intro q hq
          rcases List.mem_cons.mp hq with h4 | h4
          · exact h4 ▸ ⟨h1, h2, h3, hl seg (List.mem_cons_self _ _)⟩
          · exact hacc q h4

theorem normSegs_of_clean (l : List JStr) (acc : List JStr)
    (hl : ∀ p ∈ l, cleanSeg p) : normSegs acc l = acc.reverse ++ l := by
  induction l generalizing acc with
  | nil => simp [normSegs]
  | cons seg rest ih =>
    obtain ⟨h1, h2, h3, _⟩ := hl seg (List.mem_cons_self _ _)
    have hrest : ∀ q ∈ rest, cleanSeg q := fun q hq => hl q (List.mem_cons_of_mem _ hq)
    rw [normSegs, if_neg h1, if_neg h2, if_neg h3, ih (seg :: acc) hrest]
    simp

theorem splitOnSlash_joinSegs (segs : List JStr) (h : ∀ p ∈ segs, '/' ∉ p)
    (hne : segs ≠ []) : splitOnSlash (joinSegs segs) = segs := by
  induction segs with
  | nil => exact absurd rfl hne
  | cons s rest ih =>
    cases rest with
    | nil =>
      show splitOnSlashAux [] (joinSegs [s]) = [s]
      have := splitOnSlashAux_no_slash s [] (h s (List.mem_cons_self _ _))
      simpa [joinSegs] using this
    | cons t ts =>
      show splitOnSlashAux [] (joinSegs (s :: t :: ts)) = s :: t :: ts
      rw [joinSegs_cons_cons,
        splitOnSlashAux_slash s [] (joinSegs (t :: ts)) (h s (List.mem_cons_self _ _))]
      have := ih (fun q hq => h q (List.mem_cons_of_mem _ hq)) (by simp)
      simpa [splitOnSlash] using this

theorem canonSegs_mem_clean (p : JStr) : ∀ q ∈ canonSegs p, cleanSeg q :=
  normSegs_mem_clean _ _ (by simp) (splitOnSlash_mem_no_slash p)

theorem canonSegs_resolveAbs (p : JStr) : canonSegs (resolveAbs p) = canonSegs p := by
  have h0 : ∀ x : JStr, splitOnSlash ('/' :: x) = [] :: splitOnSlash x := by
    intro x
    simp [splitOnSlash, splitOnSlashAux]
  have hclean := canonSegs_mem_clean p
  rcases Decidable.em (canonSegs p = []) with he | hne
  · have h1 : resolveAbs p = toL "/" := by rw [resolveAbs, he]; rfl
    rw [h1, he]
    decide
  · have h1 : canonSegs (resolveAbs p) =
        normSegs [] ([] :: splitOnSlash (joinSegs (canonSegs p))) := by
      rw [resolveAbs]
      show normSegs [] (splitOnSlash _) = _
      rw [h0]
    rw [h1, splitOnSlash_joinSegs _ (fun q hq => (hclean q hq).2.2.2) hne,
      normSegs, if_pos rfl, normSegs_of_clean _ _ hclean]
    simp

theorem resolveAbs_idem (p : JStr) : resolveAbs (resolveAbs p) = resolveAbs p := by
  show '/' :: joinSegs (canonSegs (resolveAbs p)) = resolveAbs p
  rw [canonSegs_resolveAbs]
  rfl

theorem resolveFrom_canon (base target : JStr) :
    resolveAbs (resolveFrom base target) = resolveFrom base target := by
  unfold resolveFrom
  by_cases h : isAbsolute target
  · simp [h, resolveAbs_idem]
  · simp [h, resolveAbs_idem]

/-! ## Helper lemmas about MultiEdit validation -/

theorem multiEditValidate_none (content : JStr) (edits : List EditOp) (i : Nat)
    (h : multiEditValidate content edits i = none) :
    ∀ e ∈ edits, jsIncludes content e.old_text = true := by
  induction edits generalizing i with
  | nil => intro e he; simp at he
  | cons e0 rest ih =>
    intro e he
    rw [multiEditValidate] at h
    by_cases h0 : jsIncludes content e0.old_text
    · rw [if_pos h0] at h
      rcases List.mem_cons.mp he with h1 | h1
      · rw [h1]; exact h0
      · exact ih (i + 1) h e h1
    · rw [if_neg h0] at h
      exact absurd h (by simp)

theorem multiEditValidate_some (content : JStr) (edits : List EditOp) (i : Nat)
    (msg : JStr) (h : multiEditValidate content edits i = some msg) :
    ∃ e ∈ edits, jsIncludes content e.old_text = false := by
  induction edits generalizing i with
  | nil => rw [multiEditValidate] at h; exact absurd h (by simp)
  | cons e0 rest ih =>
    rw [multiEditValidate] at h
    by_cases h0 : jsIncludes content e0.old_text
    · rw [if_pos h0] at h
      obtain ⟨e, he, hfalse⟩ := ih (i + 1) h
      exact ⟨e, List.mem_cons_of_mem _ he, hfalse⟩
    · exact ⟨e0, List.mem_cons_self _ _, by simpa using h0⟩

/-! ## Helper lemmas about tree truncation -/

theorem entryName_prune (k : Nat) (e : FsEntry) :
    entryName (pruneEntry k e) = entryName e := by
  cases e <;> cases k <;> rfl

theorem entryTypeStr_prune (k : Nat) (e : FsEntry) :
    entryTypeStr (pruneEntry k e) = entryTypeStr e := by
  cases e <;> cases k <;> rfl

theorem pruneList_cons (k : Nat) (e : FsEntry) (rest : List FsEntry) :
    pruneList k (e :: rest) = pruneEntry k e :: pruneList k rest := rfl

theorem globLocals_prune (test : JStr → Bool) (dirPath : JStr) (k : Nat)
    (l : List FsEntry) :
    globLocals test dirPath (pruneList k l) = globLocals test dirPath l := by
  induction l with
  | nil => rfl
  | cons e rest ih =>
    rw [pruneList_cons]
    show List.filterMap _ (pruneEntry k e :: pruneList k rest) =
      List.filterMap _ (e :: rest)
    rw [List.filterMap_cons, List.filterMap_cons, entryName_prune, entryTypeStr_prune]
    by_cases ht : test (entryName e)
    · simp only [if_pos ht]
      exact congrArg _ ih
    · simp only [if_neg ht]
      exact ih

theorem grepLocals_prune (matcher : JStr → List JStr)
    (fileFilter : Option (JStr → Bool)) (dirPath : JStr) (k : Nat)
    (l : List FsEntry) :
    grepLocals matcher fileFilter dirPath (pruneList k l) =
      grepLocals matcher fileFilter dirPath l := by
  induction l with
  | nil => rfl
  | cons e rest ih =>
    rw [pruneList_cons]
    cases e with
    | file n c m =>
      have hpe : pruneEntry k (FsEntry.file n c m) = FsEntry.file n c m := by
        cases k <;> rfl
      rw [hpe]
      show (List.filterMap _ (FsEntry.file n c m :: pruneList k rest)).flatten =
        (List.filterMap _ (FsEntry.file n c m :: rest)).flatten
      rw [List.filterMap_cons, List.filterMap_cons]
      by_cases hf : passesFileFilter fileFilter n
      · simp only [if_pos hf, List.flatten_cons]
        exact congrArg _ ih
      · simp only [if_neg hf]
        exact ih
    | dir n children =>
      have hpe : ∃ ch', pruneEntry k (FsEntry.dir n children) = FsEntry.dir n ch' := by
        cases k <;> exact ⟨_, rfl⟩
      obtain ⟨ch', hch⟩ := hpe
      rw [hch]
      show (List.filterMap _ (FsEntry.dir n ch' :: pruneList k rest)).flatten =
        (List.filterMap _ (FsEntry.dir n children :: rest)).flatten
      rw [List.filterMap_cons, List.filterMap_cons]
      exact ih

mutual
theorem globEntrySubs_prune (test : JStr → Bool) (rec : Bool) (dirPath : JStr)
    (d : Nat) (h : d ≤ 10) (e : FsEntry) :
    globEntrySubs test rec dirPath d (pruneEntry (10 - d) e) =
      globEntrySubs test rec dirPath d e := by
  cases e with
  | file n c m =>
    have hpe : pruneEntry (10 - d) (FsEntry.file n c m) = FsEntry.file n c m := by
      cases (10 - d) <;> rfl
    rw [hpe]
  | dir n children =>
    by_cases hd : d < 10
    · have h1 : 10 - d = (10 - (d + 1)) + 1 := by omega
      rw [h1]
      show globEntrySubs test rec dirPath d
          (FsEntry.dir n (pruneList (10 - (d + 1)) children)) = _
      cases rec with
      | false => simp [globEntrySubs]
      | true =>
        simp only [globEntrySubs, Bool.true_and, decide_eq_true hd, if_true]
        rw [globLocals_prune,
          globListSubs_prune test true (dirPath ++ '/' :: n) (d + 1) (by omega) children]
    · have hd10 : d = 10 := by omega
      subst hd10
      show globEntrySubs test rec dirPath 10 (FsEntry.dir n []) = _
      simp [globEntrySubs]
termination_by structural e

theorem globListSubs_prune (test : JStr → Bool) (rec : Bool) (dirPath : JStr)
    (d : Nat) (h : d ≤ 10) (l : List FsEntry) :
    globListSubs test rec dirPath d (pruneList (10 - d) l) =
      globListSubs test rec dirPath d l := by
  cases l with
  | nil => rfl
  | cons e rest =>
    rw [pruneList_cons]
    show globEntrySubs test rec dirPath d (pruneEntry (10 - d) e) ++
        globListSubs test rec dirPath d (pruneList (10 - d) rest) = _
    rw [globEntrySubs_prune test rec dirPath d h e,
      globListSubs_prune test rec dirPath d h rest]
    rfl
termination_by structural l
end

theorem globDir_prune (test : JStr → Bool) (rec : Bool) (dirPath : JStr)
    (entries : List FsEntry) :
    globDir test rec dirPath (pruneList 10 entries) 0 =
      globDir test rec dirPath entries 0 := by
  show globLocals test dirPath (pruneList 10 entries) ++
      globListSubs test rec dirPath 0 (pruneList 10 entries) = _
  rw [globLocals_prune,
    show (10 : Nat) = 10 - 0 from rfl]
  rw [globListSubs_prune test rec dirPath 0 (by omega) entries]
  rfl

mutual
theorem grepEntrySubs_prune (matcher : JStr → List JStr)
    (fileFilter : Option (JStr → Bool)) (rec : Bool) (dirPath : JStr)
    (d : Nat) (h : d ≤ 10) (e : FsEntry) :
    grepEntrySubs matcher fileFilter rec dirPath d (pruneEntry (10 - d) e) =
      grepEntrySubs matcher fileFilter rec dirPath d e := by
  cases e with
  | file n c m =>
    have hpe : pruneEntry (10 - d) (FsEntry.file n c m) = FsEntry.file n c m := by
      cases (10 - d) <;> rfl
    rw [hpe]
  | dir n children =>
    by_cases hd : d < 10
    · have h1 : 10 - d = (10 - (d + 1)) + 1 := by omega
      rw [h1]
      show grepEntrySubs matcher fileFilter rec dirPath d
          (FsEntry.dir n (pruneList (10 - (d + 1)) children)) = _
      cases rec with
      | false => simp [grepEntrySubs]
      | true =>
        simp only [grepEntrySubs, Bool.true_and, decide_eq_true hd, if_true]
        rw [grepLocals_prune,
          grepListSubs_prune matcher fileFilter true (dirPath ++ '/' :: n) (d + 1)
            (by omega) children]
    · have hd10 : d = 10 := by omega
      subst hd10
      show grepEntrySubs matcher fileFilter rec dirPath 10 (FsEntry.dir n []) = _
      simp [grepEntrySubs]
termination_by structural e

theorem grepListSubs_prune (matcher : JStr → List JStr)
    (fileFilter : Option (JStr → Bool)) (rec : Bool) (dirPath : JStr)
    (d : Nat) (h : d ≤ 10) (l : List FsEntry) :
    grepListSubs matcher fileFilter rec dirPath d (pruneList (10 - d) l) =
      grepListSubs matcher fileFilter rec dirPath d l := by
  cases l with
  | nil => rfl
  | cons e rest =>
    rw [pruneList_cons]
    show grepEntrySubs matcher fileFilter rec dirPath d (pruneEntry (10 - d) e) ++
        grepListSubs matcher fileFilter rec dirPath d (pruneList (10 - d) rest) = _
    rw [grepEntrySubs_prune matcher fileFilter rec dirPath d h e,
      grepListSubs_prune matcher fileFilter rec dirPath d h rest]
    rfl
termination_by structural l
end

theorem grepDir_prune (matcher : JStr → List JStr)
    (fileFilter : Option (JStr → Bool)) (rec : Bool) (dirPath : JStr)
    (entries : List FsEntry) :
    grepDir matcher fileFilter rec dirPath (pruneList 10 entries) 0 =
      grepDir matcher fileFilter rec dirPath entries 0 := by
  show grepLocals matcher fileFilter dirPath (pruneList 10 entries) ++
      grepListSubs matcher fileFilter rec dirPath 0 (pruneList 10 entries) = _
  rw [grepLocals_prune, show (10 : Nat) = 10 - 0 from rfl]
  rw [grepListSubs_prune matcher fileFilter rec dirPath 0 (by omega) entries]
  rfl

mutual
theorem searchEntry_prune (test : JStr → Bool) (rootForRel dirPath : JStr)
    (d : Nat) (h : d ≤ 10) (e : FsEntry) :
    searchEntry test rootForRel dirPath d (pruneEntry (10 - d) e) =
      searchEntry test rootForRel dirPath d e := by
  cases e with
  | file n c m =>
    have hpe : pruneEntry (10 - d) (FsEntry.file n c m) = FsEntry.file n c m := by
      cases (10 - d) <;> rfl
    rw [hpe]
  | dir n children =>
    by_cases hd : d < 10
    · have h1 : 10 - d = (10 - (d + 1)) + 1 := by omega
      rw [h1]
      show searchEntry test rootForRel dirPath d
          (FsEntry.dir n (pruneList (10 - (d + 1)) children)) = _
      have hguard : ¬(d + 1 > 10) := by omega
      simp only [searchEntry, if_neg, hguard, decide_eq_false hguard,
        Bool.false_eq_true, if_false]
      exact searchList_prune test rootForRel (dirPath ++ '/' :: n) (d + 1)
        (by omega) children
    · have hd10 : d = 10 := by omega
      subst hd10
      show searchEntry test rootForRel dirPath 10 (FsEntry.dir n []) = _
      simp [searchEntry]
termination_by structural e

theorem searchList_prune (test : JStr → Bool) (rootForRel dirPath : JStr)
    (d : Nat) (h : d ≤ 10) (l : List FsEntry) :
    searchList test rootForRel dirPath d (pruneList (10 - d) l) =
      searchList test rootForRel dirPath d l := by
  cases l with
  | nil => rfl
  | cons e rest =>
    rw [pruneList_cons]
    show searchEntry test rootForRel dirPath d (pruneEntry (10 - d) e) ++
        searchList test rootForRel dirPath d (pruneList (10 - d) rest) = _
    rw [searchEntry_prune test rootForRel dirPath d h e,
      searchList_prune test rootForRel dirPath d h rest]
    rfl
termination_by structural l
end

theorem searchDir_prune (test : JStr → Bool) (rootForRel dirPath : JStr)
    (entries : List FsEntry) :
    searchDir test rootForRel dirPath (pruneList 10 entries) 0 =
      searchDir test rootForRel dirPath entries 0 := by
  show (if (0 : Nat) > 10 then [] else searchList test rootForRel dirPath 0 (pruneList 10 entries)) = _
  rw [searchDir, if_neg (by omega), if_neg (by omega),
    show (10 : Nat) = 10 - 0 from rfl]
  exact searchList_prune test rootForRel dirPath 0 (by omega) entries

theorem sortDesc_length (l : List SearchMatch) : (sortDesc l).length = l.length := by
  have hins : ∀ (x : SearchMatch) (m : List SearchMatch),
      (insertDesc x m).length = m.length + 1 := by
    intro x m
    induction m with
    | nil => rfl
    | cons y rest ih =>
      rw [insertDesc]
      by_cases hc : y.modified ≤ x.modified
      · rw [if_pos hc]
        rfl
      · rw [if_neg hc]
        simp [ih]
  induction l with
  | nil => rfl
  | cons x rest ih =>
    rw [sortDesc, hins, ih]
    rfl

/-! ## Claim theorems -/

/-- Claim C1 (amended): getSafePath performs a purely lexical containment
check — any request whose lexical target (the request itself when
absolute, otherwise its join onto the allowed directory, with `.` and
`..` resolved but symlinks NOT followed) fails the raw string-prefix
comparison against the resolved root is rejected with the access-denied
error, and no path is handed to any filesystem operation; symlink
targets play no part in the check. -/
theorem getSafePath_denies_outside_lexical (allowedDirectory requestedPath : JStr)
    (h : isPathAllowed allowedDirectory
        (lexTarget allowedDirectory requestedPath) = false) :
    getSafePath allowedDirectory requestedPath =
      Except.error (accessDeniedMsg allowedDirectory) := by
  unfold lexTarget at h
  by_cases habs : isAbsolute requestedPath = true
  · rw [if_pos habs] at h
    simp [getSafePath, habs, h]
  · rw [if_neg habs] at h
    simp [getSafePath, habs, h]

/-- Claim C1 witness: the spec scenario — root `/sandbox`, request
`../../etc/passwd` — satisfies the hypothesis and is denied. -/
theorem getSafePath_denies_outside_lexical_witness :
    isPathAllowed (toL "/sandbox")
        (lexTarget (toL "/sandbox") (toL "../../etc/passwd")) = false
    ∧ getSafePath (toL "/sandbox") (toL "../../etc/passwd") =
        Except.error (accessDeniedMsg (toL "/sandbox")) :=
  ⟨by decide, getSafePath_denies_outside_lexical _ _ (by decide)⟩

/-- Claim C1 counterexample: with root `/sandbox` and a symlink
`/sandbox/link` whose real target is `/etc/passwd`, the request `link`
resolves — via the symlink — to a target outside the sandbox root
(both segment-wise and even by the code's own raw prefix test), yet
`getSafePath` succeeds instead of failing with access denied: the
function never consults the symlink table. -/
theorem getSafePath_symlink_escape_undetected :
    getSafePath (toL "/sandbox") (toL "link") = Except.ok (toL "/sandbox/link")
    ∧ realTarget demoLinks (toL "/sandbox/link") = toL "/etc/passwd"
    ∧ isPathAllowedSegwise (toL "/sandbox")
        (realTarget demoLinks (toL "/sandbox/link")) = false
    ∧ isPathAllowed (toL "/sandbox")
        (realTarget demoLinks (toL "/sandbox/link")) = false :=
  ⟨rfl, rfl, by decide, by decide⟩

/-- Claim C2 (amended): the containment check compares the canonicalized
paths by RAW string prefix, not path-segment-aware prefix. Every true
segment-descendant of the root is allowed (this direction holds), but a
sibling path that merely extends the root as a character string is
allowed as well instead of being denied — see the counterexample. -/
theorem isPathAllowed_of_segwise (allowedDirectory targetPath : JStr)
    (h : isPathAllowedSegwise allowedDirectory targetPath = true) :
    isPathAllowed allowedDirectory targetPath = true := by
  rw [isPathAllowedSegwise] at h
  obtain ⟨rest, hrest⟩ := List.isPrefixOf_iff_prefix.mp h
  rw [isPathAllowed]
  refine List.isPrefixOf_iff_prefix.mpr ?_
  show resolveAbs allowedDirectory <+: resolveAbs targetPath
  rw [resolveAbs, resolveAbs, ← hrest]
  exact List.cons_prefix_cons.mpr ⟨rfl, joinSegs_prefix _ rest⟩

/-- Claim C2 witness: a genuine descendant `/sandbox/sub/f.txt` of
`/sandbox` passes the segment-aware check and hence the code's check. -/
theorem isPathAllowed_of_segwise_witness :
    isPathAllowedSegwise (toL "/sandbox") (toL "/sandbox/sub/f.txt") = true
    ∧ isPathAllowed (toL "/sandbox") (toL "/sandbox/sub/f.txt") = true :=
  ⟨by decide, isPathAllowed_of_segwise _ _ (by decide)⟩

/-- Claim C2 counterexample: `/sandbox-evil/f` is not a path descendant
of the root `/sandbox` (the segment-aware check rejects it), yet the
implemented raw string-prefix check accepts it and `getSafePath` returns
it instead of failing with access denied. -/
theorem sibling_string_extension_not_denied :
    isPathAllowedSegwise (toL "/sandbox") (toL "/sandbox-evil/f") = false
    ∧ isPathAllowed (toL "/sandbox") (toL "/sandbox-evil/f") = true
    ∧ getSafePath (toL "/sandbox") (toL "/sandbox-evil/f") =
        Except.ok (toL "/sandbox-evil/f") :=
  ⟨by decide, by decide, rfl⟩

/-- Claim C3 (code bug): on a file containing `x=2`, the MultiEdit call
with the chained edits `x=2 → x=3` then `x=3 → x=4` does NOT succeed —
the validation loop checks every edit's `old_text` against the ORIGINAL
content, so the second edit is reported as `Text not found` and nothing
is written, contradicting the specified chaining semantics under which
both edits apply and the file ends as `x=4`. -/
theorem multiEdit_chained_scenario_rejected :
    multiEditTool (toL "x=2")
        [⟨toL "x=2", toL "x=3", false⟩, ⟨toL "x=3", toL "x=4", false⟩] =
      Except.error (toL "Edit 2: Text not found in file: \"x=3\"")
    ∧ jsIncludes (applyEditJs (toL "x=2") ⟨toL "x=2", toL "x=3", false⟩)
        (toL "x=3") = true :=
  ⟨rfl, by decide⟩

/-- Claim C4 (amended): MultiEdit either validates every edit's
`old_text` against the ORIGINAL content and, when all are present,
returns the single final buffer obtained by folding the apply loop over
the edits in order (this value is written once; an error means the
write is never reached), or fails with a validation error, in which case
some edit's `old_text` is missing from the original content. An
`old_text` that is present originally but absent at the point its edit
runs is NOT detected — see the counterexample for the resulting buffer
corruption. -/
theorem multiEdit_atomic (content : JStr) (edits : List EditOp) :
    (multiEditTool content edits = Except.ok (edits.foldl applyEditJs content)
      ∧ ∀ e ∈ edits, jsIncludes content e.old_text = true)
    ∨ (∃ msg, multiEditTool content edits = Except.error msg
      ∧ ∃ e ∈ edits, jsIncludes content e.old_text = false) := by
  rcases hv : multiEditValidate content edits 1 with _ | msg
  · left
    constructor
    · rw [multiEditTool, hv]
    · exact multiEditValidate_none content edits 1 hv
  · right
    refine ⟨msg, ?_, multiEditValidate_some content edits 1 msg hv⟩
    rw [multiEditTool, hv]

/-- Claim C4 counterexample: on content `xax` with edits `a → b` then
`a → c`, the second edit's `old_text` is absent at the point it is
needed (the buffer is `xbx` after the first edit), but no text-not-found
error is raised: validation only looked at the original. The apply loop
then runs `indexOf = -1` through JS `substring` arithmetic, producing
`cxbx`, and this corrupted buffer IS written — the on-disk content
neither stays byte-identical nor results from applying the edits. -/
theorem multiEdit_midchain_missing_not_detected :
    multiEditTool (toL "xax")
        [⟨toL "a", toL "b", false⟩, ⟨toL "a", toL "c", false⟩] =
      Except.ok (toL "cxbx")
    ∧ jsIncludes (applyEditJs (toL "xax") ⟨toL "a", toL "b", false⟩)
        (toL "a") = false
    ∧ toL "cxbx" ≠ toL "xax" :=
  ⟨rfl, by decide, by decide⟩

/-- Claim C5 (code bug): the allowlist shell variant classifies
`rm -rf C:\Windows` as SAFE — no dangerous substring matches, and the
allowed pattern for `rm` excludes only `-rf` arguments containing a
forward slash, so a Windows system root passes and Execute spawns the
command; the spec scenario requires it to be rejected. The denylist
Windows variant does reject the same command. -/
theorem rm_rf_windows_classified_safe :
    isCommandSafe (toL "rm -rf C:\\Windows") = true
    ∧ isCommandSafeDeny (toL "rm -rf C:\\Windows") = false := by
  constructor
  · decide
  · decide

/-- Claim C6 (amended): the three traversals are depth-bounded and
capped, but the recursion guard `currentDepth < 10` (and `> 10` for
Search) still lists entries up to ELEVEN levels below the starting
directory: each traversal's result is unchanged by truncating the tree
eleven levels down (`pruneList 10` — the listed entries plus ten more
descents), glob returns at most 100 results, grep at most 200 with
`totalMatches` at least the returned count, and search returns at most
the caller-supplied `limit` (100 only by default) with `totalMatches` at
least the returned count; glob reports no total at all. -/
theorem traversals_depth_and_caps :
    (∀ (test : JStr → Bool) (rec : Bool) (dirPath : JStr) (entries : List FsEntry),
      globDir test rec dirPath (pruneList 10 entries) 0 =
        globDir test rec dirPath entries 0)
    ∧ (∀ (test : JStr → Bool) (patternStr searchPath : JStr)
        (entries : List FsEntry) (rec : Bool),
      (globTool test patternStr searchPath entries rec).results.length ≤ 100)
    ∧ (∀ (matcher : JStr → List JStr) (fileFilter : Option (JStr → Bool))
        (rec : Bool) (dirPath : JStr) (entries : List FsEntry),
      grepDir matcher fileFilter rec dirPath (pruneList 10 entries) 0 =
        grepDir matcher fileFilter rec dirPath entries 0)
    ∧ (∀ (matcher : JStr → List JStr) (fileFilter : Option (JStr → Bool))
        (rec : Bool) (searchPath : JStr) (entries : List FsEntry),
      (grepTool matcher fileFilter rec searchPath entries).results.length ≤ 200
      ∧ (grepTool matcher fileFilter rec searchPath entries).results.length ≤
          (grepTool matcher fileFilter rec searchPath entries).totalMatches)
    ∧ (∀ (test : JStr → Bool) (rootForRel dirPath : JStr) (entries : List FsEntry),
      searchDir test rootForRel dirPath (pruneList 10 entries) 0 =
        searchDir test rootForRel dirPath entries 0)
    ∧ (∀ (test : JStr → Bool) (rootForRel searchPath : JStr)
        (entries : List FsEntry) (limit : Nat),
      (searchTool test rootForRel searchPath entries limit).results.length ≤ limit
      ∧ (searchTool test rootForRel searchPath entries limit).results.length ≤
          (searchTool test rootForRel searchPath entries limit).totalMatches) := by
  refine ⟨globDir_prune, ?_, grepDir_prune, ?_, searchDir_prune, ?_⟩
  · intro test patternStr searchPath entries rec
    simp [globTool]
  · intro matcher fileFilter rec searchPath entries
    constructor
    · simp [grepTool]
    · simp only [grepTool, List.length_take]
      exact min_le_right _ _
  · intro test rootForRel searchPath entries limit
    constructor
    · simp [searchTool]
    · simp only [searchTool, List.length_take, sortDesc_length]
      exact min_le_right _ _

/-- Claim C6 counterexample: in a tree of ten nested directories with a
matching file eleven levels below the start, glob DOES return the match
at depth 11 (deeper than the claimed bound of 10); only at depth 12 do
matches stop appearing. -/
theorem glob_returns_depth11_match :
    globDir (fun n => n == toL "hit") true (toL "/r") (deepDirs 10) 0 =
      [⟨toL "hit", toL "/r/d/d/d/d/d/d/d/d/d/d/hit", toL "file"⟩]
    ∧ (splitOnSlash (relFrom (toL "/r") (toL "/r/d/d/d/d/d/d/d/d/d/d/hit"))).length = 11
    ∧ globDir (fun n => n == toL "hit") true (toL "/r") (deepDirs 11) 0 = [] :=
  ⟨rfl, by decide, rfl⟩

/-- Claim C7 (amended): an Edit whose oldText is the empty string is NOT
rejected — `content.includes('')` is always true — and with the default
first-occurrence mode the file IS modified: `indexOf('')` is `0`, so the
written content is `newText` prepended to the original content. -/
theorem edit_empty_old_text_modifies (content newText : JStr) :
    editTool content (toL "") newText false = Except.ok (newText ++ content) := by
  show editTool content [] newText false = _
  have h1 : jsIncludes content [] = true := by
    cases content <;> simp [jsIncludes, List.isPrefixOf]
  have h2 : jsIndexOf content [] = 0 := by
    cases content <;> simp [jsIndexOf, jsIndexOfAux, List.isPrefixOf]
  have h3 : ¬((List.length content : Int) < 0) := by omega
  simp [editTool, h1, jsReplaceOnce, h2, jsSubstring, jsSubstringFrom, clampIdx, h3]

/-- Claim C7 counterexample: `edit("x=1", "", "NEW")` is accepted rather
than rejected as a usage error, and it changes the file content. -/
theorem edit_empty_old_text_not_rejected :
    editTool (toL "x=1") (toL "") (toL "NEW") false = Except.ok (toL "NEWx=1")
    ∧ toL "NEWx=1" ≠ toL "x=1" :=
  ⟨rfl, by decide⟩

/-- Claim C8 (amended): Glob caps its results at 100 — the response holds
exactly the first 100 traversal results — but the response object
carries only `pattern`, `searchPath` and the truncated list: no
total-match count is reported to the caller. -/
theorem glob_cap_without_total (test : JStr → Bool) (patternStr searchPath : JStr)
    (entries : List FsEntry) (rec : Bool) :
    (globTool test patternStr searchPath entries rec).results.length ≤ 100
    ∧ (globTool test patternStr searchPath entries rec).results =
        (globDir test rec searchPath entries 0).take 100 :=
  ⟨by simp [globTool], rfl⟩

set_option maxRecDepth 10000 in
/-- Claim C8 counterexample: two flat trees with 101 and 102 matching
entries produce IDENTICAL Glob responses, so the response cannot be
telling the caller the total count of matches found — the claimed
found-count is absent from the returned result object. -/
theorem glob_truncation_total_count_lost :
    globTool (fun _ => true) (toL "*") (toL "/r") (flatFiles 101) true =
      globTool (fun _ => true) (toL "*") (toL "/r") (flatFiles 102) true
    ∧ (globDir (fun _ => true) true (toL "/r") (flatFiles 101) 0).length = 101
    ∧ (globDir (fun _ => true) true (toL "/r") (flatFiles 102) 0).length = 102 := by
  refine ⟨?_, ?_, ?_⟩ <;> rfl

/-- Claim C9: the CD tool only ever narrows or laterally extends the
allowed-directory string. Provided the current allowed directory is in
canonical form (true from initialisation on, and preserved here), a
successful CD yields a new allowed directory that has the previous one
as a string prefix, that the filesystem reports as an existing
directory, and that is again canonical; every failing CD (empty target,
target resolving outside the root's string prefix, or not an existing
directory) leaves the allowed directory unchanged. -/
theorem cd_invariants (isDir : JStr → Bool) (allowedDirectory targetPath : JStr)
    (hcanon : resolveAbs allowedDirectory = allowedDirectory) :
    (exceptOk (cdTool isDir allowedDirectory targetPath).2 = true →
      allowedDirectory.isPrefixOf (cdTool isDir allowedDirectory targetPath).1 = true
      ∧ isDir (cdTool isDir allowedDirectory targetPath).1 = true
      ∧ resolveAbs (cdTool isDir allowedDirectory targetPath).1 =
          (cdTool isDir allowedDirectory targetPath).1)
    ∧ (exceptOk (cdTool isDir allowedDirectory targetPath).2 = false →
      (cdTool isDir allowedDirectory targetPath).1 = allowedDirectory) := by
  by_cases h0 : targetPath = []
  · have hcd : cdTool isDir allowedDirectory targetPath =
        (allowedDirectory, Except.error (toL "Path is required")) := by
      rw [cdTool, if_pos h0]
    rw [hcd]
    exact ⟨fun hok => absurd hok (by simp [exceptOk]), fun _ => rfl⟩
  · by_cases h1 : isPathAllowed allowedDirectory
        (resolveFrom allowedDirectory targetPath) = true
    · by_cases h2 : isDir (resolveFrom allowedDirectory targetPath) = true
      · have hcd : cdTool isDir allowedDirectory targetPath =
            (resolveFrom allowedDirectory targetPath,
             Except.ok (toL "Changed working directory to: " ++
               resolveFrom allowedDirectory targetPath)) := by
          simp [cdTool, h0, h1, h2]
        rw [hcd]
        refine ⟨fun _ => ⟨?_, h2, resolveFrom_canon _ _⟩,
          fun hbad => absurd hbad (by simp [exceptOk])⟩
        have h1' := h1
        rw [isPathAllowed, hcanon, resolveFrom_canon] at h1'
        exact h1'
      · have h2' : isDir (resolveFrom allowedDirectory targetPath) = false := by
          simpa using h2
        have hcd : cdTool isDir allowedDirectory targetPath =
            (allowedDirectory,
             Except.error (toL "Directory does not exist: " ++
               resolveFrom allowedDirectory targetPath)) := by
          simp [cdTool, h0, h1, h2']
        rw [hcd]
        exact ⟨fun hok => absurd hok (by simp [exceptOk]), fun _ => rfl⟩
    · have h1' : isPathAllowed allowedDirectory
          (resolveFrom allowedDirectory targetPath) = false := by
        simpa using h1
      have hcd : cdTool isDir allowedDirectory targetPath =
          (allowedDirectory,
           Except.error (toL "Path outside allowed directory: " ++
             resolveFrom allowedDirectory targetPath)) := by
        simp [cdTool, h0, h1']
      rw [hcd]
      exact ⟨fun hok => absurd hok (by simp [exceptOk]), fun _ => rfl⟩

/-- Claim C9 witness: from the canonical root `/sandbox`, `cd sub` (with
`/sandbox/sub` an existing directory) succeeds, and the theorem's
conclusions hold for it. -/
theorem cd_invariants_witness :
    resolveAbs (toL "/sandbox") = toL "/sandbox"
    ∧ ((exceptOk (cdTool (fun p => p == toL "/sandbox/sub") (toL "/sandbox")
          (toL "sub")).2 = true →
        (toL "/sandbox").isPrefixOf (cdTool (fun p => p == toL "/sandbox/sub")
          (toL "/sandbox") (toL "sub")).1 = true
        ∧ (fun p => p == toL "/sandbox/sub") (cdTool (fun p => p == toL "/sandbox/sub")
            (toL "/sandbox") (toL "sub")).1 = true
        ∧ resolveAbs (cdTool (fun p => p == toL "/sandbox/sub")
            (toL "/sandbox") (toL "sub")).1 =
          (cdTool (fun p => p == toL "/sandbox/sub") (toL "/sandbox") (toL "sub")).1)
      ∧ (exceptOk (cdTool (fun p => p == toL "/sandbox/sub") (toL "/sandbox")
          (toL "sub")).2 = false →
        (cdTool (fun p => p == toL "/sandbox/sub") (toL "/sandbox")
          (toL "sub")).1 = toL "/sandbox")) :=
  ⟨by decide, cd_invariants (fun p => p == toL "/sandbox/sub") (toL "/sandbox")
    (toL "sub") (by decide)⟩

/-- Claim C10 (amended): in the allowlist shell variant the dangerous
denylist takes precedence — whenever the lowercased, TRIMMED command
contains some `DANGEROUS_COMMANDS` entry as a substring, `isCommandSafe`
returns false and Execute rejects the command, even if an allowed verb
pattern also matches. (Because the comparison runs on the trimmed
string, an entry with trailing whitespace such as `"net "` can escape
when its occurrence is cut off by trimming — see the counterexample.) -/
theorem dangerous_substring_rejected (command : JStr)
    (h : DANGEROUS_COMMANDS.any
        (fun dangerous =>
          jsIncludes (trimJs (lowerJs command)) (lowerJs dangerous)) = true) :
    isCommandSafe command = false := by
  simp [isCommandSafe, h]

/-- Claim C10 witness: `echo sudo` matches the allowed `echo` pattern
but contains the dangerous entry `sudo`, so it is rejected. -/
theorem dangerous_substring_rejected_witness :
    DANGEROUS_COMMANDS.any
        (fun dangerous =>
          jsIncludes (trimJs (lowerJs (toL "echo sudo"))) (lowerJs dangerous)) = true
    ∧ isCommandSafe (toL "echo sudo") = false :=
  ⟨by decide, dangerous_substring_rejected _ (by decide)⟩

/-- Claim C10 counterexample: the command `cat net ` (with trailing
space) contains the dangerous entry `net ` as a substring, yet
`isCommandSafe` returns true — trimming removes the trailing space
before the substring comparison, so the claimed rejection of EVERY
command containing a dangerous entry does not hold. -/
theorem dangerous_entry_escapes_via_trim :
    (toL "net ") ∈ DANGEROUS_COMMANDS
    ∧ jsIncludes (lowerJs (toL "cat net ")) (lowerJs (toL "net ")) = true
    ∧ isCommandSafe (toL "cat net ") = true :=
  ⟨by decide, by decide, by decide⟩
